import Mathlib

/-!
# Company Dashboard Tracker — verification of the extraction pipeline

A shallow embedding of the data-extraction and normalization pipeline of
`company_dashboard_tracker.py`: the list collector, the record extractor
(scalar fields, label-classified table series, quarterly rows), the batch
orchestrator and the control flow of `main`.

DOM reads that can raise are modelled as `Option` inputs (`none` = the
lookup raised an exception); the surrounding Python `try`/`except` blocks
become the explicit `match`es below.  Strings keep Python's semantics:
`str.strip` is `stripStr`, `str.lower` is `lowerStr`, substring
containment (`in`) is `containsSub`.  Python dicts (insertion ordered,
assignment replaces the value of an existing key in place) are association
lists with `dictInsert`.
-/

/-- A company reference collected from a watchlist row
(`{'name': ..., 'url': ...}` in `scrape_watchlist_companies`). -/
structure Company where
  name : String
  url : String
deriving DecidableEq

/-- One quarterly row (`{'period', 'sales', 'profit'}` in
`scrape_company_data`). -/
structure Quarter where
  period : String
  sales : String
  profit : String
deriving DecidableEq

/-- The per-company record built by `scrape_company_data`. -/
structure FinancialRecord where
  name : String
  url : String
  current_price : Option String
  market_cap : Option String
  pe_ratio : Option String
  sector : Option String
  revenue_data : List (String × List String)
  profit_data : List (String × List String)
  margin_data : List (String × List String)
  quarterly_data : List Quarter
deriving DecidableEq

/-- One table found under `section.card`: `headerOk` is whether the
`thead th` lookup succeeds (when it raises, the per-table `except` skips
the whole table); each body row is `some` list of cell texts, or `none`
when reading that row raises (the per-row `except` skips it). -/
structure Table where
  headerOk : Bool
  rows : List (Option (List String))
deriving DecidableEq

/-- What a company detail page offers once navigation succeeded: each
scalar element lookup either yields the element text (`some`) or raises
(`none`); `tables` is `none` when the `section.card table` lookup raises;
`quarterly` is `none` when locating the quarterly section/table raises. -/
structure Page where
  price : Option String
  mcap : Option String
  pe : Option String
  sector : Option String
  tables : Option (List Table)
  quarterly : Option (List (Option (List String)))

/-- Python `str.strip()`: drop leading and trailing whitespace. -/
def stripStr (s : String) : String :=
  ⟨((s.data.dropWhile Char.isWhitespace).reverse.dropWhile Char.isWhitespace).reverse⟩

/-- Python `str.lower()` (ASCII case folding). -/
def lowerStr (s : String) : String :=
  ⟨s.data.map Char.toLower⟩

/-- Whether `n` begins `h`. -/
def leadsWith : List Char → List Char → Bool
  | [], _ => true
  | _ :: _, [] => false
  | a :: as, b :: bs => a == b && leadsWith as bs

/-- Python substring containment `n in h`. -/
def containsSub (n : List Char) : List Char → Bool
  | [] => n.isEmpty
  | c :: rest => leadsWith n (c :: rest) || containsSub n rest

/-- The record as initialised at the top of `scrape_company_data`, before
any extraction is attempted. -/
def initRecord (c : Company) : FinancialRecord where
  name := c.name
  url := c.url
  current_price := none
  market_cap := none
  pe_ratio := none
  sector := none
  revenue_data := []
  profit_data := []
  margin_data := []
  quarterly_data := []

/-- The "Extract basic info" block of `scrape_company_data`
(lines 163–181): ONE `try` covers the four lookups in the order price,
market cap, P/E, sector; each field is assigned as soon as its lookup
succeeds, and the first lookup that raises aborts the remaining ones
(the single `except` merely logs). -/
def extractBasicInfo (p : Page) (d : FinancialRecord) : FinancialRecord :=
  match p.price with
  | none => d
  | some s1 =>
    let d := { d with current_price := some (stripStr s1) }
    match p.mcap with
    | none => d
    | some s2 =>
      let d := { d with market_cap := some (stripStr s2) }
      match p.pe with
      | none => d
      | some s3 =>
        let d := { d with pe_ratio := some (stripStr s3) }
        match p.sector with
        | none => d
        | some s4 => { d with sector := some (stripStr s4) }

def pageScalarsC1 : Page where
  price := some "100"
  mcap := none
  pe := some "12"
  sector := some "Tech"
  tables := some []
  quarterly := some []

def acmeC1 : Company := ⟨"Acme", "https://example.com/acme"⟩

/-- Claim C1 (counterexample).  On a page where only the market-cap lookup
raises while price, P/E and sector lookups would all succeed
(`pageScalarsC1`), the extracted record does NOT have "all other attempted
scalar fields populated": price is populated but P/E and sector come out
absent, because all four lookups share one `try` block and the market-cap
failure aborts the later ones.  This refutes the claim that each scalar
field is attempted independently. -/
theorem extractBasicInfo_single_scope_cex :
    extractBasicInfo pageScalarsC1 (initRecord acmeC1) =
      { initRecord acmeC1 with current_price := some "100" } ∧
    pageScalarsC1.pe = some "12" ∧ pageScalarsC1.sector = some "Tech" := by
  refine ⟨?_, rfl, rfl⟩
  decide

/-- Claim C1 (amended).  The four scalar lookups share a single failure
scope and are attempted in the fixed order price, market cap, P/E ratio,
sector: the first lookup that raises leaves its own field and every later
field absent, while every field before it is populated.  (Only when the
last field, sector, is the sole failure do all other fields stay
populated.) -/
theorem extractBasicInfo_sequential_scope (d : FinancialRecord) (p m q s : String)
    (om oq os : Option String) (ot : Option (List Table))
    (oqr : Option (List (Option (List String)))) :
    extractBasicInfo ⟨none, om, oq, os, ot, oqr⟩ d = d ∧
    extractBasicInfo ⟨some p, none, oq, os, ot, oqr⟩ d =
      { d with current_price := some (stripStr p) } ∧
    extractBasicInfo ⟨some p, some m, none, os, ot, oqr⟩ d =
      { d with current_price := some (stripStr p), market_cap := some (stripStr m) } ∧
    extractBasicInfo ⟨some p, some m, some q, none, ot, oqr⟩ d =
      { d with current_price := some (stripStr p), market_cap := some (stripStr m),
               pe_ratio := some (stripStr q) } ∧
    extractBasicInfo ⟨some p, some m, some q, some s, ot, oqr⟩ d =
      { d with current_price := some (stripStr p), market_cap := some (stripStr m),
               pe_ratio := some (stripStr q), sector := some (stripStr s) } :=
  ⟨rfl, rfl, rfl, rfl, rfl⟩

/-- Python dict assignment `d[k] = v` on an insertion-ordered dict: an
existing key keeps its position but gets the new value; a new key is
appended. -/
def dictInsert : List (String × List String) → String → List String →
    List (String × List String)
  | [], k, v => [(k, v)]
  | p :: rest, k, v => if p.1 = k then (k, v) :: rest else p :: dictInsert rest k v

/-- Python dict lookup `d[k]` (as an `Option`). -/
def findVal : List (String × List String) → String → Option (List String)
  | [], _ => none
  | p :: rest, k => if p.1 = k then some p.2 else findVal rest k

/-- The table-row body of `scrape_company_data` (lines 195–216): a row
with fewer than 2 cells is skipped; otherwise the first cell (stripped) is
the metric label, the remaining cells (stripped) the values, and the
`if`/`elif` chain files the row by label substrings — Sales/Revenue to
`revenue_data`, Operating Profit/EBITDA to `profit_data`, Net Profit to
`profit_data`, lowercased "margin" to `margin_data`, otherwise nowhere. -/
def processRow (d : FinancialRecord) (cells : List String) : FinancialRecord :=
  match cells with
  | c0 :: v :: vs =>
    let metric_name := stripStr c0
    let values := (v :: vs).map stripStr
    if containsSub "Sales".data metric_name.data
        || containsSub "Revenue".data metric_name.data then
      { d with revenue_data := dictInsert d.revenue_data metric_name values }
    else if containsSub "Operating Profit".data metric_name.data
        || containsSub "EBITDA".data metric_name.data then
      { d with profit_data := dictInsert d.profit_data metric_name values }
    else if containsSub "Net Profit".data metric_name.data then
      { d with profit_data := dictInsert d.profit_data metric_name values }
    else if containsSub "margin".data (lowerStr metric_name).data then
      { d with margin_data := dictInsert d.margin_data metric_name values }
    else d
  | _ => d

/-- The three series mappings a classified row can be filed under. -/
inductive Target where
  | revenue
  | profit
  | margin
deriving DecidableEq

/-- The spec's ordered classification ruleset, first match wins:
1. Sales/Revenue, 2. Operating Profit/EBITDA, 3. Net Profit,
4. case-insensitive margin, otherwise unclassified. -/
def classifyLabel (label : String) : Option Target :=
  if containsSub "Sales".data label.data
      || containsSub "Revenue".data label.data then some .revenue
  else if containsSub "Operating Profit".data label.data
      || containsSub "EBITDA".data label.data then some .profit
  else if containsSub "Net Profit".data label.data then some .profit
  else if containsSub "margin".data (lowerStr label).data then some .margin
  else none

/-- The series mapping of a record a target names. -/
def seriesOf (d : FinancialRecord) : Target → List (String × List String)
  | .revenue => d.revenue_data
  | .profit => d.profit_data
  | .margin => d.margin_data

/-- Replace the series mapping a target names. -/
def setSeries (d : FinancialRecord) : Target → List (String × List String) →
    FinancialRecord
  | .revenue, m => { d with revenue_data := m }
  | .profit, m => { d with profit_data := m }
  | .margin, m => { d with margin_data := m }

/-- Rewrites `processRow` in terms of the classification ruleset. -/
theorem processRow_classify_eq (d : FinancialRecord) (c0 v : String) (vs : List String) :
    processRow d (c0 :: v :: vs) =
      match classifyLabel (stripStr c0) with
      | some t =>
        setSeries d t (dictInsert (seriesOf d t) (stripStr c0) ((v :: vs).map stripStr))
      | none => d := by
  by_cases h1 : (containsSub "Sales".data (stripStr c0).data
      || containsSub "Revenue".data (stripStr c0).data) = true
  · simp [processRow, classifyLabel, h1, seriesOf, setSeries]
  · by_cases h2 : (containsSub "Operating Profit".data (stripStr c0).data
        || containsSub "EBITDA".data (stripStr c0).data) = true
    · simp [processRow, classifyLabel, h1, h2, seriesOf, setSeries]
    · by_cases h3 : containsSub "Net Profit".data (stripStr c0).data = true
      · simp [processRow, classifyLabel, h1, h2, h3, seriesOf, setSeries]
      · by_cases h4 : containsSub "margin".data (lowerStr (stripStr c0)).data = true
        · simp [processRow, classifyLabel, h1, h2, h3, h4, seriesOf, setSeries]
        · simp [processRow, classifyLabel, h1, h2, h3, h4]

/-- An empty record to instantiate witnesses with. -/
def recEmpty : FinancialRecord := initRecord ⟨"X", "https://example.com/x"⟩

/-- Claim C3.  Row-label classification is first-match-wins in the fixed
order Sales/Revenue, Operating Profit/EBITDA, Net Profit, margin: a row
whose (stripped) label contains both `"Sales"` and `"margin"` as
substrings is filed under `revenue_data` by rule 1, and `margin_data` is
left untouched — rule 4 is never reached. -/
theorem processRow_sales_margin_precedence (d : FinancialRecord) (c0 v : String)
    (vs : List String)
    (h1 : containsSub "Sales".data (stripStr c0).data = true)
    (h2 : containsSub "margin".data (stripStr c0).data = true) :
    processRow d (c0 :: v :: vs) =
      { d with revenue_data :=
          dictInsert d.revenue_data (stripStr c0) ((v :: vs).map stripStr) } ∧
    (processRow d (c0 :: v :: vs)).margin_data = d.margin_data := by
  have he : processRow d (c0 :: v :: vs) =
      { d with revenue_data :=
          dictInsert d.revenue_data (stripStr c0) ((v :: vs).map stripStr) } := by
    simp [processRow, h1]
  exact ⟨he, by rw [he]⟩

theorem processRow_sales_margin_precedence_witness :
    processRow recEmpty ["Sales margin", "5"] =
      { recEmpty with revenue_data := dictInsert recEmpty.revenue_data (stripStr "Sales margin") (["5"].map stripStr) } ∧
    (processRow recEmpty ["Sales margin", "5"]).margin_data = recEmpty.margin_data :=
  processRow_sales_margin_precedence recEmpty "Sales margin" "5" []
    (by decide) (by decide)

/-- Claim C7.  A row with a single cell is skipped and stored nowhere; for
a row with at least two cells, the stored value sequence is every cell
after the first, stripped, in column order, keyed by the stripped label in
whichever series the label classifies to (and nowhere when unclassified);
concretely, `["Net Sales", "100", "120", "140"]` yields
`revenue_data = [("Net Sales", ["100", "120", "140"])]`. -/
theorem processRow_value_sequence (d : FinancialRecord) (c c0 v : String)
    (vs : List String) :
    processRow d [c] = d ∧
    processRow d (c0 :: v :: vs) =
      (match classifyLabel (stripStr c0) with
       | some t =>
         setSeries d t (dictInsert (seriesOf d t) (stripStr c0) ((v :: vs).map stripStr))
       | none => d) ∧
    processRow recEmpty ["Net Sales", "100", "120", "140"] =
      { recEmpty with revenue_data := [("Net Sales", ["100", "120", "140"])] } :=
  ⟨rfl, processRow_classify_eq d c0 v vs, by decide⟩

theorem findVal_dictInsert (m : List (String × List String)) (k : String)
    (v : List String) (k' : String) :
    findVal (dictInsert m k v) k' = if k' = k then some v else findVal m k' := by
  induction m with
  | nil =>
    by_cases h : k' = k
    · simp [dictInsert, findVal, h]
    · have h' : ¬ k = k' := fun hh => h hh.symm
      simp [dictInsert, findVal, h, h']
  | cons p rest ih =>
    by_cases hp : p.1 = k
    · by_cases h : k' = k
      · simp [dictInsert, findVal, hp, h]
      · have h' : ¬ k = k' := fun hh => h hh.symm
        have hpk : ¬ p.1 = k' := fun hh => h' (hp.symm.trans hh)
        simp [dictInsert, findVal, hp, h, h', hpk]
    · by_cases hq : p.1 = k'
      · have h : ¬ k' = k := fun hh => hp (hq.trans hh)
        simp [dictInsert, findVal, hp, hq, h]
      · simp [dictInsert, findVal, hp, hq, ih]

theorem dictInsert_map_fst (m : List (String × List String)) (k : String)
    (v : List String) :
    (dictInsert m k v).map Prod.fst =
      if k ∈ m.map Prod.fst then m.map Prod.fst else m.map Prod.fst ++ [k] := by
  induction m with
  | nil => simp [dictInsert]
  | cons p rest ih =>
    by_cases hp : p.1 = k
    · simp [dictInsert, hp]
    · have : ¬ k = p.1 := fun hh => hp hh.symm
      by_cases hk : k ∈ rest.map Prod.fst <;>
        simp [dictInsert, hp, hk, this, ih]

theorem dictInsert_keys_nodup (m : List (String × List String)) (k : String)
    (v : List String) (h : (m.map Prod.fst).Nodup) :
    ((dictInsert m k v).map Prod.fst).Nodup := by
  rw [dictInsert_map_fst]
  by_cases hk : k ∈ m.map Prod.fst
  · simpa [hk]
  · simpa [hk, List.nodup_append] using h

/-- The per-row `try` of the table loop: a row whose cells could not be
read (`none`) is skipped by the `except: continue`. -/
def processRowO (d : FinancialRecord) : Option (List String) → FinancialRecord
  | none => d
  | some cells => processRow d cells

/-- The per-table `try`: the `thead th` lookup must succeed (otherwise the
whole table is skipped), then every body row is processed. -/
def processTable (d : FinancialRecord) (t : Table) : FinancialRecord :=
  if t.headerOk then t.rows.foldl processRowO d else d

/-- The "Extract 10-year data from tables" loop over every
`section.card table` of the page (lines 184–225). -/
def extractTables (d : FinancialRecord) (ts : List Table) : FinancialRecord :=
  ts.foldl processTable d

/-- All readable rows of all scanned (header-bearing) tables, in page
order. -/
def scannedRows : List Table → List (List String)
  | [] => []
  | t :: ts => (if t.headerOk then t.rows.filterMap id else []) ++ scannedRows ts

/-- The contribution a single row makes to series `t` at label `k`:
`some values` when the row has at least two cells, its stripped label is
`k` and classifies to `t`. -/
def rowEntry (t : Target) (k : String) (cells : List String) : Option (List String) :=
  match cells with
  | c0 :: v :: vs =>
    if stripStr c0 = k ∧ classifyLabel (stripStr c0) = some t then
      some ((v :: vs).map stripStr)
    else none
  | _ => none

def lastStep (t : Target) (k : String) (acc : Option (List String))
    (cells : List String) : Option (List String) :=
  match rowEntry t k cells with
  | some v => some v
  | none => acc

/-- The LAST row of `rows` contributing to series `t` at label `k`. -/
def lastEntry (t : Target) (k : String) (rows : List (List String)) :
    Option (List String) :=
  rows.foldl (lastStep t k) none

/-- Each series mapping holds at most one value sequence per label. -/
def keysNodup (d : FinancialRecord) : Prop :=
  (d.revenue_data.map Prod.fst).Nodup ∧ (d.profit_data.map Prod.fst).Nodup ∧
    (d.margin_data.map Prod.fst).Nodup

theorem seriesOf_setSeries (d : FinancialRecord) (t0 t : Target)
    (m : List (String × List String)) :
    seriesOf (setSeries d t0 m) t = if t = t0 then m else seriesOf d t := by
  cases t <;> cases t0 <;> simp [setSeries, seriesOf]

theorem processRow_findVal (d : FinancialRecord) (cells : List String)
    (t : Target) (k : String) :
    findVal (seriesOf (processRow d cells) t) k =
      match rowEntry t k cells with
      | some v => some v
      | none => findVal (seriesOf d t) k := by
  match cells with
  | [] => rfl
  | [c] => rfl
  | c0 :: v :: vs =>
    rw [processRow_classify_eq]
    cases hc : classifyLabel (stripStr c0) with
    | none => simp [rowEntry, hc]
    | some t0 =>
      simp only [rowEntry, hc, Option.some.injEq, seriesOf_setSeries]
      by_cases ht : t = t0
      · subst ht
        by_cases hk : stripStr c0 = k
        · simp [hk, findVal_dictInsert]
        · have hk' : ¬ k = stripStr c0 := fun hh => hk hh.symm
          simp [hk, hk', findVal_dictInsert]
      · have ht' : ¬ t0 = t := fun hh => ht hh.symm
        simp [ht, ht']

theorem foldl_lastStep (t : Target) (k : String) (rows : List (List String))
    (x : Option (List String)) :
    rows.foldl (lastStep t k) x =
      match rows.foldl (lastStep t k) none with
      | some v => some v
      | none => x := by
  induction rows generalizing x with
  | nil => rfl
  | cons r rest ih =>
    rw [List.foldl_cons, List.foldl_cons, ih (lastStep t k none r), ih (lastStep t k x r)]
    cases hre : rowEntry t k r <;>
      cases hK : rest.foldl (lastStep t k) none <;>
        simp [lastStep, hre, hK]

theorem lastEntry_cons (t : Target) (k : String) (r : List String)
    (rest : List (List String)) :
    lastEntry t k (r :: rest) =
      match lastEntry t k rest with
      | some v => some v
      | none => rowEntry t k r := by
  show (r :: rest).foldl (lastStep t k) none = _
  rw [List.foldl_cons, foldl_lastStep]
  cases h2 : rowEntry t k r <;>
    cases hK : rest.foldl (lastStep t k) none <;>
      simp [lastEntry, lastStep, h2, hK]

theorem foldl_processRow_findVal (rows : List (List String)) (d : FinancialRecord)
    (t : Target) (k : String) :
    findVal (seriesOf (rows.foldl processRow d) t) k =
      match lastEntry t k rows with
      | some v => some v
      | none => findVal (seriesOf d t) k := by
  induction rows generalizing d with
  | nil => rfl
  | cons r rest ih =>
    rw [List.foldl_cons, ih, processRow_findVal, lastEntry_cons]
    cases h1 : lastEntry t k rest <;> cases h2 : rowEntry t k r <;> simp [h1, h2]

theorem foldl_processRowO_filterMap (rows : List (Option (List String)))
    (d : FinancialRecord) :
    rows.foldl processRowO d = (rows.filterMap id).foldl processRow d := by
  induction rows generalizing d with
  | nil => rfl
  | cons r rest ih => cases r <;> simp [processRowO, ih, List.filterMap_cons]

theorem extractTables_eq_foldl_scanned (ts : List Table) (d : FinancialRecord) :
    extractTables d ts = (scannedRows ts).foldl processRow d := by
  induction ts generalizing d with
  | nil => rfl
  | cons tb rest ih =>
    have ih' : ∀ e : FinancialRecord,
        List.foldl processTable e rest = List.foldl processRow e (scannedRows rest) :=
      fun e => ih e
    show (tb :: rest).foldl processTable d = _
    rw [List.foldl_cons, scannedRows]
    cases htb : tb.headerOk <;>
      simp [processTable, htb, List.foldl_append, ih', foldl_processRowO_filterMap]

theorem processRow_keysNodup (d : FinancialRecord) (cells : List String)
    (h : keysNodup d) : keysNodup (processRow d cells) := by
  match cells with
  | [] => exact h
  | [c] => exact h
  | c0 :: v :: vs =>
    rw [processRow_classify_eq]
    cases hc : classifyLabel (stripStr c0) with
    | none => exact h
    | some t0 =>
      cases t0
      · exact ⟨dictInsert_keys_nodup _ _ _ h.1, h.2.1, h.2.2⟩
      · exact ⟨h.1, dictInsert_keys_nodup _ _ _ h.2.1, h.2.2⟩
      · exact ⟨h.1, h.2.1, dictInsert_keys_nodup _ _ _ h.2.2⟩

theorem foldl_processRow_keysNodup (rows : List (List String))
    (d : FinancialRecord) (h : keysNodup d) :
    keysNodup (rows.foldl processRow d) := by
  induction rows generalizing d with
  | nil => exact h
  | cons r rest ih => exact ih _ (processRow_keysNodup _ _ h)

/-- Claim C9.  Across all scanned tables of a detail page, when the same
(stripped) metric label occurs in several classified rows, the LAST
occurrence in page order is the value sequence the series mapping holds
(Python dict assignment overwrites), and each series mapping keeps at most
one value sequence per label (no duplicate keys are ever created). -/
theorem extractTables_last_label_wins (d : FinancialRecord) (ts : List Table)
    (t : Target) (k : String) (h : keysNodup d) :
    findVal (seriesOf (extractTables d ts) t) k =
      (match lastEntry t k (scannedRows ts) with
       | some v => some v
       | none => findVal (seriesOf d t) k) ∧
    keysNodup (extractTables d ts) := by
  rw [extractTables_eq_foldl_scanned]
  exact ⟨foldl_processRow_findVal _ _ _ _, foldl_processRow_keysNodup _ _ h⟩

def tablesC9 : List Table := [⟨true, [some ["Sales", "1"], some ["Sales", "2"]]⟩]

theorem extractTables_last_label_wins_witness :
    findVal (seriesOf (extractTables recEmpty tablesC9) Target.revenue) "Sales" =
      (match lastEntry Target.revenue "Sales" (scannedRows tablesC9) with
       | some v => some v
       | none => findVal (seriesOf recEmpty Target.revenue) "Sales") ∧
    keysNodup (extractTables recEmpty tablesC9) :=
  extractTables_last_label_wins recEmpty tablesC9 Target.revenue "Sales"
    ⟨by decide, by decide, by decide⟩

/-- The body of the quarterly row loop: an unreadable row (`none`) is
skipped by the per-row `except`; a row with at least 3 cells contributes
`{period, sales, profit}` from its first three cells; shorter rows are
skipped. -/
def quarterStep (acc : List Quarter) : Option (List String) → List Quarter
  | none => acc
  | some cells =>
    match cells with
    | a :: b :: c :: _ => acc ++ [⟨stripStr a, stripStr b, stripStr c⟩]
    | _ => acc

/-- The quarterly extraction block of `scrape_company_data` (lines
228–247): `none` when locating the quarterly section or its table raised
(the whole block yields nothing); otherwise the loop runs over
`q_rows[:8]` — the first 8 body rows — and keeps the well-formed ones. -/
def extractQuarterly (q : Option (List (Option (List String)))) : List Quarter :=
  match q with
  | none => []
  | some qrows => (qrows.take 8).foldl quarterStep []

/-- What a single quarterly row yields: `none` for an unreadable row or
one with fewer than 3 cells. -/
def toQuarter : Option (List String) → Option Quarter
  | some (a :: b :: c :: _) => some ⟨stripStr a, stripStr b, stripStr c⟩
  | _ => none

theorem quarterStep_toQuarter (acc : List Quarter) (r : Option (List String)) :
    quarterStep acc r =
      match toQuarter r with
      | some qt => acc ++ [qt]
      | none => acc := by
  match r with
  | none => rfl
  | some [] => rfl
  | some [a] => rfl
  | some [a, b] => rfl
  | some (a :: b :: c :: rest) => rfl

theorem foldl_quarterStep (rows : List (Option (List String))) :
    ∀ acc : List Quarter,
      rows.foldl quarterStep acc = acc ++ rows.filterMap toQuarter := by
  induction rows with
  | nil => simp
  | cons r rest ih =>
    intro acc
    rw [List.foldl_cons, quarterStep_toQuarter]
    cases ht : toQuarter r <;> simp [ht, ih, List.filterMap_cons]

theorem extractQuarterly_eq (rows : List (Option (List String))) :
    extractQuarterly (some rows) = (rows.take 8).filterMap toQuarter := by
  show (rows.take 8).foldl quarterStep [] = _
  rw [foldl_quarterStep]
  simp

theorem filterMap_toQuarter_length (l : List (Option (List String)))
    (h : ∀ r ∈ l, (toQuarter r).isSome = true) :
    (l.filterMap toQuarter).length = l.length := by
  induction l with
  | nil => rfl
  | cons r rest ih =>
    have hr := h r (by simp)
    cases ht : toQuarter r with
    | none => rw [ht] at hr; simp at hr
    | some qt =>
      simp [List.filterMap_cons, ht, ih (fun x hx => h x (by simp [hx]))]

/-- Claim C6.  Quarterly extraction takes at most the first 8 body rows
and keeps a row only if it has at least 3 cells (mapped positionally to
period, sales, profit), skipping malformed rows; when all 12 rows of the
table are valid, exactly the first 8 are retained, in original order. -/
theorem extractQuarterly_first8 (rows : List (Option (List String)))
    (h1 : rows.length = 12)
    (h2 : ∀ r ∈ rows, (toQuarter r).isSome = true) :
    extractQuarterly (some rows) = (rows.take 8).filterMap toQuarter ∧
    (extractQuarterly (some rows)).length = 8 := by
  refine ⟨extractQuarterly_eq rows, ?_⟩
  rw [extractQuarterly_eq,
    filterMap_toQuarter_length _ (fun r hr => h2 r (List.take_subset _ _ hr)),
    List.length_take, h1]
  decide

def rows12C6 : List (Option (List String)) :=
  [some ["Q1", "1", "2"], some ["Q2", "1", "2"], some ["Q3", "1", "2"],
   some ["Q4", "1", "2"], some ["Q5", "1", "2"], some ["Q6", "1", "2"],
   some ["Q7", "1", "2"], some ["Q8", "1", "2"], some ["Q9", "1", "2"],
   some ["Q10", "1", "2"], some ["Q11", "1", "2"], some ["Q12", "1", "2"]]

theorem extractQuarterly_first8_witness :
    extractQuarterly (some rows12C6) = (rows12C6.take 8).filterMap toQuarter ∧
    (extractQuarterly (some rows12C6)).length = 8 :=
  extractQuarterly_first8 rows12C6 (by decide) (by decide)

theorem filterMap_toQuarter_length_lt (l : List (Option (List String)))
    (h : ∃ r ∈ l, toQuarter r = none) :
    (l.filterMap toQuarter).length < l.length := by
  induction l with
  | nil => simp at h
  | cons r rest ih =>
    obtain ⟨x, hx, hxn⟩ := h
    cases ht : toQuarter r with
    | none =>
      simp only [List.filterMap_cons, ht, List.length_cons]
      exact Nat.lt_succ_of_le (List.length_filterMap_le _ _)
    | some qt =>
      have hrest : ∃ y ∈ rest, toQuarter y = none := by
        rcases List.mem_cons.mp hx with h' | h'
        · subst h'; rw [ht] at hxn; cases hxn
        · exact ⟨x, h', hxn⟩
      simp only [List.filterMap_cons, ht, List.length_cons]
      exact Nat.succ_lt_succ (ih hrest)

/-- Claim C10.  The `[:8]` slice is applied BEFORE the at-least-3-cells
validity check: a malformed row among the first 8 body rows leaves the
quarterly sequence with fewer than 8 entries even when valid rows exist
beyond position 8, and rows beyond position 8 are never consulted. -/
theorem extractQuarterly_slice_before_filter (rows : List (Option (List String)))
    (h : ∃ r ∈ rows.take 8, toQuarter r = none) :
    extractQuarterly (some rows) = (rows.take 8).filterMap toQuarter ∧
    (extractQuarterly (some rows)).length < 8 := by
  refine ⟨extractQuarterly_eq rows, ?_⟩
  rw [extractQuarterly_eq]
  exact lt_of_lt_of_le (filterMap_toQuarter_length_lt _ h)
    (List.length_take_le 8 rows)

def rowsC10 : List (Option (List String)) :=
  [some ["Q1", "1", "2"], some ["Q2", "1", "2"], some ["Q3", "1"],
   some ["Q4", "1", "2"], some ["Q5", "1", "2"], some ["Q6", "1", "2"],
   some ["Q7", "1", "2"], some ["Q8", "1", "2"], some ["Q9", "1", "2"],
   some ["Q10", "1", "2"], some ["Q11", "1", "2"], some ["Q12", "1", "2"]]

theorem extractQuarterly_slice_before_filter_witness :
    extractQuarterly (some rowsC10) = (rowsC10.take 8).filterMap toQuarter ∧
    (extractQuarterly (some rowsC10)).length < 8 :=
  extractQuarterly_slice_before_filter rowsC10 (by decide)

/-- The function `scrape_company_data` (lines 141–254): the outer `try` wraps
navigation and the whole body, but every sub-extraction is inside its own
inner `try`/`except`, so only a navigation failure (`driver.get`) reaches
the outer `except`, which returns `None`.  When navigation succeeds the
record is always returned with whatever each block could contribute. -/
def scrape_company_data (company : Company) (navOk : Bool) (page : Page) :
    Option FinancialRecord :=
  if navOk then
    let d0 := initRecord company
    let d1 := extractBasicInfo page d0
    let d2 := match page.tables with
      | none => d1
      | some ts => extractTables d1 ts
    some { d2 with quarterly_data := d2.quarterly_data ++ extractQuarterly page.quarterly }
  else none

/-- Claim C4.  The extractor yields a record exactly when navigation
succeeded: a navigation failure yields no record, and with navigation
successful a record is returned even when every sub-extraction raised
(all scalar lookups, the table lookup and the quarterly lookup), in which
case every optional field is absent and every series empty. -/
theorem scrape_company_data_navigation_total (c : Company) (navOk : Bool)
    (page : Page) :
    (scrape_company_data c navOk page).isSome = navOk ∧
    scrape_company_data c false page = none ∧
    scrape_company_data c true ⟨none, none, none, none, none, none⟩ =
      some (initRecord c) := by
  refine ⟨?_, rfl, rfl⟩
  cases navOk <;> rfl

/-- The loop body of `scrape_all_companies`: a successful scrape is
appended to the dataset, a failed one contributes nothing. -/
def collectStep (scrape : Company → Option FinancialRecord)
    (all_data : List FinancialRecord) (company : Company) : List FinancialRecord :=
  match scrape company with
  | some d => all_data ++ [d]
  | none => all_data

/-- The function `scrape_all_companies` (lines 256–275): one scrape per company, in
input order, collecting the successes. -/
def scrape_all_companies (companies : List Company)
    (scrape : Company → Option FinancialRecord) : List FinancialRecord :=
  companies.foldl (collectStep scrape) []

theorem foldl_collectStep (f : Company → Option FinancialRecord)
    (l : List Company) :
    ∀ acc : List FinancialRecord,
      l.foldl (collectStep f) acc = acc ++ l.filterMap f := by
  induction l with
  | nil => simp
  | cons c rest ih =>
    intro acc
    cases hc : f c <;> simp [collectStep, hc, ih, List.filterMap_cons]

theorem length_filterMap_add_count (f : Company → Option FinancialRecord)
    (l : List Company) :
    (l.filterMap f).length + (l.filter fun c => (f c).isNone).length = l.length := by
  induction l with
  | nil => rfl
  | cons c rest ih =>
    cases hc : f c <;> simp [List.filterMap_cons, List.filter_cons, hc] <;> omega

/-- Claim C5.  The orchestrator calls the extractor once per company,
sequentially in input order: its dataset is exactly the successful
extractions in input order (`filterMap`), so for N companies of which k
fail its length is N − k, and the relative order of successes is
preserved. -/
theorem scrape_all_companies_order_length (companies : List Company)
    (f : Company → Option FinancialRecord) :
    scrape_all_companies companies f = companies.filterMap f ∧
    (scrape_all_companies companies f).length =
      companies.length - (companies.filter fun c => (f c).isNone).length := by
  have he : scrape_all_companies companies f = companies.filterMap f := by
    show companies.foldl (collectStep f) [] = _
    rw [foldl_collectStep]
    simp
  refine ⟨he, ?_⟩
  rw [he]
  have hc := length_filterMap_add_count f companies
  omega

/-- The body of the dedup loop of `get_all_watchlist_companies`: a company
whose name was already seen is dropped; otherwise it is appended to the
output and its name added to the `seen` set. -/
def dedupStep (acc : List Company × List String) (company : Company) :
    List Company × List String :=
  if company.name ∈ acc.2 then acc else (acc.1 ++ [company], acc.2 ++ [company.name])

/-- The function `get_all_watchlist_companies` (lines 120–135): walk the watchlists in
configuration order, skip those whose URL is empty (Python truthiness of
the string), scrape each, and keep only first occurrences by name. -/
def get_all_watchlist_companies (watchlists : List (String × String))
    (scrape : String → List Company) : List Company :=
  (watchlists.foldl
    (fun acc nu => if nu.2 ≠ "" then (scrape nu.2).foldl dedupStep acc else acc)
    ([], [])).1

/-- Every row the collector sees, in (list order, row order), watchlists
with an empty URL skipped. -/
def collectedRows : List (String × String) → (String → List Company) → List Company
  | [], _ => []
  | nu :: wls, scrape =>
    (if nu.2 ≠ "" then scrape nu.2 else []) ++ collectedRows wls scrape

/-- The spec's de-duplication: keep each name's first occurrence, drop
every later duplicate of that name (not merged, not overwritten). -/
def firstOccurrences : List Company → List Company
  | [] => []
  | c :: rest => c :: firstOccurrences (rest.filter fun d => d.name != c.name)
termination_by l => l.length
decreasing_by
  simp only [List.length_cons]
  exact Nat.lt_succ_of_le (List.length_filter_le _ _)

theorem foldl_dedupStep_firstOcc (l : List Company) :
    ∀ (acc : List Company) (seen : List String),
      (l.foldl dedupStep (acc, seen)).1 =
        acc ++ firstOccurrences (l.filter fun d => decide (d.name ∉ seen)) := by
  induction l with
  | nil =>
    intro acc seen
    simp [firstOccurrences]
  | cons c rest ih =>
    intro acc seen
    by_cases h : c.name ∈ seen
    · rw [List.foldl_cons]
      have hd : dedupStep (acc, seen) c = (acc, seen) := by simp [dedupStep, h]
      have hf : (c :: rest).filter (fun d => decide (d.name ∉ seen)) =
          rest.filter (fun d => decide (d.name ∉ seen)) := by
        simp [List.filter_cons, h]
      rw [hd, ih, hf]
    · rw [List.foldl_cons]
      have hd : dedupStep (acc, seen) c = (acc ++ [c], seen ++ [c.name]) := by
        simp [dedupStep, h]
      have hf : (c :: rest).filter (fun d => decide (d.name ∉ seen)) =
          c :: rest.filter (fun d => decide (d.name ∉ seen)) := by
        simp [List.filter_cons, h]
      have hff : rest.filter (fun d => decide (d.name ∉ seen ++ [c.name])) =
          (rest.filter fun d => decide (d.name ∉ seen)).filter
            (fun d => d.name != c.name) := by
        rw [List.filter_filter]
        apply List.filter_congr
        intro d _
        by_cases h1 : d.name ∈ seen <;> by_cases h2 : d.name = c.name <;>
          simp [h1, h2, List.mem_append]
      rw [hd, ih, hf, firstOccurrences, hff]
      simp

theorem get_all_foldl_collected (scrape : String → List Company)
    (wls : List (String × String)) :
    ∀ acc : List Company × List String,
      wls.foldl
        (fun acc nu => if nu.2 ≠ "" then (scrape nu.2).foldl dedupStep acc else acc)
        acc =
      (collectedRows wls scrape).foldl dedupStep acc := by
  induction wls with
  | nil => intro acc; rfl
  | cons nu rest ih =>
    intro acc
    rw [List.foldl_cons, ih, collectedRows]
    by_cases h : nu.2 = ""
    · simp [h]
    · simp [h, List.foldl_append]

theorem mem_firstOccurrences (x : Company) :
    ∀ l : List Company, x ∈ firstOccurrences l → x ∈ l := by
  intro l
  induction l using firstOccurrences.induct with
  | case1 => simp [firstOccurrences]
  | case2 c rest ih =>
    rw [firstOccurrences]
    intro hx
    rcases List.mem_cons.mp hx with h | h
    · exact h ▸ List.mem_cons_self _ _
    · exact List.mem_cons_of_mem _ (List.mem_filter.mp (ih h)).1

theorem firstOccurrences_names_nodup (l : List Company) :
    ((firstOccurrences l).map (fun c => c.name)).Nodup := by
  induction l using firstOccurrences.induct with
  | case1 => simp [firstOccurrences]
  | case2 c rest ih =>
    rw [firstOccurrences]
    simp only [List.map_cons, List.nodup_cons]
    refine ⟨?_, ih⟩
    intro hmem
    obtain ⟨d, hd, hdn⟩ := List.mem_map.mp hmem
    have hdf := mem_firstOccurrences d _ hd
    have hne := (List.mem_filter.mp hdf).2
    exact absurd hdn (by simpa using hne)

/-- Claim C2.  The collector's output is exactly the first occurrence of
each distinct company name in (list order, row order) over all configured
watchlists: later duplicates are dropped (not merged or overwritten), and
each name appears exactly once. -/
theorem get_all_watchlist_companies_first_occurrence
    (watchlists : List (String × String)) (scrape : String → List Company) :
    get_all_watchlist_companies watchlists scrape =
      firstOccurrences (collectedRows watchlists scrape) ∧
    ((get_all_watchlist_companies watchlists scrape).map (fun c => c.name)).Nodup := by
  have he : get_all_watchlist_companies watchlists scrape =
      firstOccurrences (collectedRows watchlists scrape) := by
    show (watchlists.foldl
      (fun acc nu => if nu.2 ≠ "" then (scrape nu.2).foldl dedupStep acc else acc)
      ([], [])).1 = _
    rw [get_all_foldl_collected, foldl_dedupStep_firstOcc]
    simp
  exact ⟨he, he ▸ firstOccurrences_names_nodup _⟩

/-- The four environment variables `main` validates (lines 476–486). -/
structure Env where
  username : Option String
  password : Option String
  sheetId : Option String
  creds : Option String

/-- Python truthiness of an env var: missing when unset or empty. -/
def isBlank : Option String → Bool
  | none => true
  | some s => s == ""

/-- The `missing` list computed by `main`, in dict iteration order. -/
def missingVars (e : Env) : List String :=
  (if isBlank e.username then ["SCREENER_USERNAME"] else []) ++
  (if isBlank e.password then ["SCREENER_PASSWORD"] else []) ++
  (if isBlank e.sheetId then ["GOOGLE_SHEET_ID"] else []) ++
  (if isBlank e.creds then ["GOOGLE_CREDENTIALS_BASE64"] else [])

/-- The observable outcome of one run of `main`: the process exit status,
for how many companies record extraction was attempted, and whether each
publisher (sheet sync, workbook) was invoked. -/
structure MainOutcome where
  exitCode : Nat
  extractionAttempts : Nat
  sheetsAttempted : Bool
  excelAttempted : Bool
deriving DecidableEq

/-- The function `main` (lines 468–537): missing configuration exits with status 1; a
login failure raises, is caught by the outer `except` and exits 1; zero
companies prints a warning and calls `sys.exit(0)` — status 0 — before
any extraction (`SystemExit` is not an `Exception`, so the outer `except`
does not intercept it); an empty dataset after extraction exits 1;
otherwise both publishers are invoked and the process ends with 0. -/
def mainRun (e : Env) (loginOk : Bool) (watchlists : List (String × String))
    (scrapeList : String → List Company)
    (scrapeOne : Company → Option FinancialRecord) : MainOutcome :=
  if missingVars e ≠ [] then ⟨1, 0, false, false⟩
  else if !loginOk then ⟨1, 0, false, false⟩
  else
    let companies := get_all_watchlist_companies watchlists scrapeList
    if companies = [] then ⟨0, 0, false, false⟩
    else
      let all_data := scrape_all_companies companies scrapeOne
      if all_data = [] then ⟨1, companies.length, false, false⟩
      else ⟨0, companies.length, true, true⟩

def envOkC8 : Env := ⟨some "user", some "pass", some "sheet", some "creds"⟩

/-- Claim C8 (counterexample).  With complete configuration, a successful
login and both watchlists configured with empty URLs (zero companies
discovered), the run aborts before any extraction and without the
publishers — but with exit status 0, the SUCCESS status (`sys.exit(0)`),
not as a failure; by contrast the zero-records fatal path exits with
status 1. -/
theorem mainRun_zero_companies_exit_status :
    mainRun envOkC8 true [("My Stonks", ""), ("Core Watchlist", "")]
      (fun _ => []) (fun _ => none) = ⟨0, 0, false, false⟩ ∧
    mainRun envOkC8 true [("My Stonks", "https://w")]
      (fun _ => [⟨"Acme", "https://a"⟩]) (fun _ => none) = ⟨1, 1, false, false⟩ :=
  ⟨by decide, by decide⟩

theorem collectedRows_nil (wls : List (String × String)) (f : String → List Company)
    (h : ∀ nu ∈ wls, nu.2 ≠ "" → f nu.2 = []) : collectedRows wls f = [] := by
  induction wls with
  | nil => rfl
  | cons nu rest ih =>
    rw [collectedRows, ih (fun x hx hne => h x (List.mem_cons_of_mem _ hx) hne)]
    by_cases hh : nu.2 = ""
    · simp [hh]
    · simp [hh, h nu (List.mem_cons_self _ _) hh]

theorem get_all_watchlist_companies_nil (wls : List (String × String))
    (f : String → List Company) (h : ∀ nu ∈ wls, nu.2 ≠ "" → f nu.2 = []) :
    get_all_watchlist_companies wls f = [] := by
  show (wls.foldl
    (fun acc nu => if nu.2 ≠ "" then (f nu.2).foldl dedupStep acc else acc)
    ([], [])).1 = []
  rw [get_all_foldl_collected, collectedRows_nil wls f h]
  rfl

/-- Claim C8 (amended).  When every configured watchlist yields no
companies — including when no watchlist has a non-empty URL — the run
aborts before any record extraction and without attempting the
publishers, but it exits with SUCCESS status 0 (`sys.exit(0)`), unlike
the other fatal conditions, which exit with status 1. -/
theorem mainRun_zero_companies_aborts_early (e : Env)
    (wls : List (String × String)) (f : String → List Company)
    (g : Company → Option FinancialRecord)
    (hmiss : missingVars e = [])
    (hempty : ∀ nu ∈ wls, nu.2 ≠ "" → f nu.2 = []) :
    mainRun e true wls f g = ⟨0, 0, false, false⟩ := by
  have hc := get_all_watchlist_companies_nil wls f hempty
  simp [mainRun, hmiss, hc]

theorem mainRun_zero_companies_aborts_early_witness :
    mainRun envOkC8 true [("My Stonks", "")] (fun _ => []) (fun _ => none) =
      ⟨0, 0, false, false⟩ :=
  mainRun_zero_companies_aborts_early envOkC8 [("My Stonks", "")] (fun _ => [])
    (fun _ => none) (by decide) (by decide)
